import Mathlib

/-!
A shallow embedding of `update-gomod.py`, a tool that resolves legacy gx
(content-hash addressed) package dependencies to git versions or commits.

Python strings are modelled as Lean `String`s (a wrapper around `List Char`,
matching Python's code-point view); Python string primitives used by the
code (`split`, slicing, `startswith`, `in`, `"/".join`) are re-implemented
below with matching semantics.  Python exceptions are modelled with
`Except PyErr`.  External process invocations (`subprocess.run`) and the
filesystem are modelled as oracle inputs: a `ProcResult` holds the
returncode and captured stdout of one invocation, a `World` maps each query
the program makes to its result, and the manifest filesystem is a function
from paths to optional parsed manifests (`none` = missing or unparsable).
-/

instance {ε : Type u} {α : Type v} [DecidableEq ε] [DecidableEq α] : DecidableEq (Except ε α) :=
  fun x y =>
  match x, y with
  | .error a, .error b =>
    if h : a = b then isTrue (by rw [h]) else isFalse (by simp [h])
  | .ok a, .ok b =>
    if h : a = b then isTrue (by rw [h]) else isFalse (by simp [h])
  | .error _, .ok _ => isFalse (by simp)
  | .ok _, .error _ => isFalse (by simp)

/-- Python exception kinds raised by the program.  `manifestError` stands for
the `FileNotFoundError`/`json.JSONDecodeError` raised by
`open`/`json.load`, `keyError` for a missing dict key, `valueError` for
`ValueError`, and the rest mirror the script's own exception classes. -/
inductive PyErr where
  | manifestError
  | keyError
  | valueError
  | getVersionFailure
  | getCommitFailure
  | downloadFailure
deriving DecidableEq, Repr

/-- Result of one `subprocess.run` invocation: the process return code and
the captured standard output (decoded as text). -/
structure ProcResult where
  returncode : Int
  stdout : String
deriving DecidableEq, Repr

/-! ### Python string primitives -/

/-- Core of Python `str.split(sep)` on a single-character separator, over the
code-point list.  Python's split always yields at least one field
(`"".split(':') == ['']`). -/
def pySplitCore (sep : Char) : List Char → List (List Char)
  | [] => [[]]
  | c :: rest =>
    match pySplitCore sep rest with
    | [] => [[]]
    | h :: t => if c = sep then [] :: h :: t else (c :: h) :: t

/-- Python `s.split(sep)` for a one-character separator. -/
def pySplit (sep : Char) (s : String) : List String :=
  (pySplitCore sep s.data).map String.mk

/-- Python slicing `s[n:]` (by code points). -/
def pyDrop (s : String) (n : Nat) : String :=
  String.mk (s.data.drop n)

/-- Helper for Python substring search: does `pat` occur contiguously in the
list? -/
def pyContainsAux (pat : List Char) : List Char → Bool
  | [] => pat.isPrefixOf []
  | c :: rest => pat.isPrefixOf (c :: rest) || pyContainsAux pat rest

/-- Python `sub in s` (substring containment test). -/
def pyContains (sub s : String) : Bool :=
  pyContainsAux sub.data s.data

/-- Python `s.startswith(pre)`. -/
def pyStartsWith (s pre : String) : Bool :=
  pre.data.isPrefixOf s.data

/-- Python `sep.join(parts)`. -/
def pyJoin (sep : String) (parts : List String) : String :=
  String.intercalate sep parts

/-! ### Python `int(s, 16)` validity

`get_commit_from_repo` validates its candidate token with `int(token, 16)`,
treating `ValueError` as "not a commit".  CPython accepts: optional
surrounding whitespace, an optional sign, an optional `0x`/`0X` prefix, and
hexadecimal digits optionally separated by single underscores (an
underscore is also allowed directly after the prefix).  The model below
covers the ASCII syntax; CPython additionally accepts non-ASCII Unicode
decimal digits, which are not modelled. -/

/-- ASCII hexadecimal digit. -/
def isHexDigitChar (c : Char) : Bool :=
  ('0' ≤ c && c ≤ '9') || ('a' ≤ c && c ≤ 'f') || ('A' ≤ c && c ≤ 'F')

/-- ASCII whitespace stripped by Python `int`. -/
def pyIsSpace (c : Char) : Bool :=
  c = ' ' || c = '\t' || c = '\n' || c = '\r' || c = '\x0b' || c = '\x0c'

/-- Continuation of a digit run: `('_'? hexdigit)*`. -/
def hexTail : List Char → Bool
  | [] => true
  | c :: rest =>
    if c = '_' then
      match rest with
      | [] => false
      | d :: rest2 => isHexDigitChar d && hexTail rest2
    else isHexDigitChar c && hexTail rest

/-- A nonempty run of hex digits with single underscores between digits. -/
def pyHexBody : List Char → Bool
  | [] => false
  | c :: rest => isHexDigitChar c && hexTail rest

/-- After the optional sign: optional `0x`/`0X` prefix, then digits. -/
def pyAfterSign : List Char → Bool
  | [] => false
  | c :: rest =>
    if c = '0' then
      match rest with
      | [] => true
      | d :: rest2 =>
        if d = 'x' || d = 'X' then
          match rest2 with
          | '_' :: rest3 => pyHexBody rest3
          | _ => pyHexBody rest2
        else pyHexBody (c :: rest)
    else pyHexBody (c :: rest)

/-- After stripping whitespace: optional sign, then the rest. -/
def pyAfterSpace (l : List Char) : Bool :=
  match l with
  | [] => false
  | c :: rest => if c = '+' || c = '-' then pyAfterSign rest else pyAfterSign (c :: rest)

/-- Strip leading and trailing Python whitespace. -/
def pyStrip (l : List Char) : List Char :=
  (((l.dropWhile pyIsSpace).reverse.dropWhile pyIsSpace)).reverse

/-- Whether CPython's `int(s, 16)` succeeds (ASCII syntax). -/
def pyIntBase16Valid (s : String) : Bool :=
  pyAfterSpace (pyStrip s.data)

/-! ### The gx path codec (`make_gx_path` / `extract_gx_hash`)

In the script `GX_PREFIX = f"{GOPATH}/src/gx/ipfs"` depends on the `GOPATH`
environment variable; it is threaded through the model as the parameter
`gxp`. -/

/-- `make_gx_path`: `"{GX_PREFIX}/{gx_hash}/{repo_name}"`. -/
def make_gx_path (gxp gx_hash repo_name : String) : String :=
  gxp ++ "/" ++ gx_hash ++ "/" ++ repo_name

/-- `extract_gx_hash`: checks the gx path starts with the gx directory,
strips `GX_PREFIX` plus one separator, splits on `'/'` and returns the
first two components (hash, package name); raises `ValueError` otherwise. -/
def extract_gx_hash (gxp gx_path : String) : Except PyErr (String × String) :=
  if ¬ pyStartsWith gx_path gxp then .error .valueError
  else
    let path_list := pySplit '/' (pyDrop gx_path (gxp.length + 1))
    if path_list.length < 2 then .error .valueError
    else .ok (path_list.getD 0 "", path_list.getD 1 "")

/-! ### Repository queries -/

/-- The external world: for each `git_repo`, the outcome of listing its tags
(`git tag`), and for each `(git_repo, gx_hash)`, the outcome of the
commit-history content search pipeline
(`git rev-list --all | xargs git grep {gx_hash} | tail -n1`). -/
structure World where
  tag_of : String → ProcResult
  grep_of : String → String → ProcResult

/-- `is_version_in_repo`: raises `GetVersionFailure` when the tag listing
process fails, else tests exact membership of `sem_ver` in the
newline-split tag listing. -/
def is_version_in_repo (w : World) (git_repo sem_ver : String) : Except PyErr Bool :=
  let res := w.tag_of git_repo
  if res.returncode ≠ 0 then .error .getVersionFailure
  else .ok (sem_ver ∈ pySplit '\n' res.stdout)

/-- `get_commit_from_repo`: raises `GetCommitFailure` when the search
pipeline fails; otherwise takes field 0 of the output split on `':'`
(the `IndexError` handler in the source corresponds to the `none` branch of
`head?`), returns `none` unless the token passes `int(token, 16)` and has
length 40, and returns the token otherwise. -/
def get_commit_from_repo (w : World) (git_repo gx_hash : String) : Except PyErr (Option String) :=
  let res := w.grep_of git_repo gx_hash
  if res.returncode ≠ 0 then .error .getCommitFailure
  else
    match (pySplit ':' res.stdout).head? with
    | none => .error .getCommitFailure
    | some module_commit =>
      if ¬ pyIntBase16Valid module_commit then .ok none
      else if module_commit.length ≠ 40 then .ok none
      else .ok (some module_commit)

/-! ### Repository location resolution -/

/-- `_dvcsimport_to_git_repo`: keep the first three `/`-separated segments
of the dvcsimport path (site/user/repo) and drop the rest. -/
def dvcsimport_to_git_repo (dvcsimport_path : String) : String :=
  pyJoin "/" ((pySplit '/' dvcsimport_path).take 3)

/-- The inlined GitHub `gxed` organisation listing from
`get_gxed_repos_from_github` (before the `del`). -/
def gxed_repo_map_full : List (String × String) := [
  ("bbloom", "github.com/gxed/bbloom"), ("client_golang", "github.com/gxed/client_golang"), ("eventfd", "github.com/gxed/eventfd"),
  ("GoEndian", "github.com/gxed/GoEndian"), ("go-is-domain", "github.com/gxed/go-is-domain"), ("superrepo", "github.com/gxed/superrepo"),
  ("golang-levenshtein", "github.com/gxed/golang-levenshtein"), ("go-homedir", "github.com/gxed/go-homedir"), ("raft", "github.com/gxed/raft"),
  ("go-codec", "github.com/gxed/go-codec"), ("go-metrics", "github.com/gxed/go-metrics"), ("cli", "github.com/gxed/cli"),
  ("raft-boltdb", "github.com/gxed/raft-boltdb"), ("bolt", "github.com/gxed/bolt"), ("mux", "github.com/gxed/mux"),
  ("context", "github.com/gxed/context"), ("btcd", "github.com/gxed/btcd"), ("ed25519", "github.com/gxed/ed25519"),
  ("s3gof3r", "github.com/gxed/s3gof3r"), ("bazil-fuse", "github.com/gxed/bazil-fuse"), ("mmap-go", "github.com/gxed/mmap-go"),
  ("errors", "github.com/gxed/errors"), ("smux", "github.com/gxed/smux"), ("websocket", "github.com/gxed/websocket"),
  ("badger", "github.com/gxed/badger"), ("go-lz4", "github.com/gxed/go-lz4"), ("btcutil", "github.com/gxed/btcutil"),
  ("protobuf", "github.com/gxed/protobuf"), ("go-farm", "github.com/gxed/go-farm"), ("go-immutable-radix", "github.com/gxed/go-immutable-radix"),
  ("golang-lru", "github.com/gxed/golang-lru"), ("sys", "github.com/gxed/sys"), ("ginkgo", "github.com/gxed/ginkgo"),
  ("gomega", "github.com/gxed/gomega"), ("base58", "github.com/gxed/base58"), ("sha256-simd", "github.com/gxed/sha256-simd"),
  ("blake2b-simd", "github.com/gxed/blake2b-simd"), ("opentracing-go", "github.com/gxed/opentracing-go"), ("go.uuid", "github.com/gxed/go.uuid"),
  ("go-check", "github.com/gxed/go-check"), ("pubsub", "github.com/gxed/pubsub"), ("hashland", "github.com/gxed/hashland"),
  ("zeroconf", "github.com/gxed/zeroconf"), ("dns", "github.com/gxed/dns"), ("go-net", "github.com/gxed/go-net"),
  ("go-text", "github.com/gxed/go-text"), ("go-crypto", "github.com/gxed/go-crypto"), ("go4-lock", "github.com/gxed/go4-lock"),
  ("go-isatty", "github.com/gxed/go-isatty"), ("go-colorable", "github.com/gxed/go-colorable"), ("structs", "github.com/gxed/structs"),
  ("go-toml", "github.com/gxed/go-toml"), ("toml", "github.com/gxed/toml"), ("pb", "github.com/gxed/pb"),
  ("go-runewidth", "github.com/gxed/go-runewidth"), ("color", "github.com/gxed/color"), ("tools", "github.com/gxed/tools"),
  ("jsondiff", "github.com/gxed/jsondiff"), ("ansi", "github.com/gxed/ansi"), ("go-multierror", "github.com/gxed/go-multierror"),
  ("go-errwrap", "github.com/gxed/go-errwrap"), ("fsnotify", "github.com/gxed/fsnotify"), ("fuse", "github.com/gxed/fuse"),
  ("go-crypto-dav", "github.com/gxed/go-crypto-dav"), ("bulb", "github.com/gxed/bulb"), ("sizedwaitgroup", "github.com/gxed/sizedwaitgroup"),
  ("go-git", "github.com/gxed/go-git"), ("go-diff", "github.com/gxed/go-diff"), ("warnings", "github.com/gxed/warnings"),
  ("gcfg", "github.com/gxed/gcfg"), ("ssh-agent", "github.com/gxed/ssh-agent"), ("go-billy", "github.com/gxed/go-billy"),
  ("uuid", "github.com/gxed/uuid"), ("go-nat", "github.com/gxed/go-nat"), ("goupnp", "github.com/gxed/goupnp"),
  ("backoff", "github.com/gxed/backoff"), ("go_rng", "github.com/gxed/go_rng"), ("go-junit-report", "github.com/gxed/go-junit-report"),
  ("go-require-gx", "github.com/gxed/go-require-gx"), ("opencensus-go", "github.com/gxed/opencensus-go"), ("go-shellwords", "github.com/gxed/go-shellwords"),
  ("grpc-go", "github.com/gxed/grpc-go"), ("oauth2", "github.com/gxed/oauth2"), ("mock", "github.com/gxed/mock"),
  ("glog", "github.com/gxed/glog"), ("go-genproto", "github.com/gxed/go-genproto"), ("google-cloud-go", "github.com/gxed/google-cloud-go"),
  ("google-api-go-client", "github.com/gxed/google-api-go-client"), ("go-sync", "github.com/gxed/go-sync"), ("pq", "github.com/gxed/pq"),
  ("prometheus-common", "github.com/gxed/prometheus-common"), ("client_model", "github.com/gxed/client_model"), ("httprouter", "github.com/gxed/httprouter"),
  ("go-gitignore", "github.com/gxed/go-gitignore"), ("aws-sdk-go", "github.com/gxed/aws-sdk-go"), ("go-jmespath", "github.com/gxed/go-jmespath"),
  ("envconfig", "github.com/gxed/envconfig"), ("go-ceph", "github.com/gxed/go-ceph"), ("testify", "github.com/gxed/testify"),
  ("gods", "github.com/gxed/gods"), ("go-buffruneio", "github.com/gxed/go-buffruneio"), ("ssh_config", "github.com/gxed/ssh_config"),
  ("go-flags", "github.com/gxed/go-flags")]

/-- `get_gxed_repos_from_github`: the inlined map with the `bbloom` entry
explicitly removed (`del repo_map['bbloom']`). -/
def get_gxed_repos_from_github : List (String × String) :=
  gxed_repo_map_full.filter (fun e => e.fst != "bbloom")

/-- The repository-location choice inlined in `get_repo_deps`: prefer the
`gxed` override keyed by the gx package short name, fall back to deriving
from the dvcsimport path. -/
def resolve_git_repo (gx_pkg_name pkg : String) : String :=
  match get_gxed_repos_from_github.lookup gx_pkg_name with
  | some git_repo => git_repo
  | none => dvcsimport_to_git_repo pkg

/-! ### Resolution and the update phase -/

/-- The `RepoVersion` namedtuple. -/
structure RepoVersion where
  gx_hash : String
  git_repo : String
  version : Option String
  pkg : String
deriving DecidableEq, Repr

/-- `parse_version_from_repo_gx_hash`: when a raw version is declared, test
the `v`-prefixed tag against the repo's tag listing; always run the
commit-history search; exceptions from either query propagate. -/
def parse_version_from_repo_gx_hash (w : World) (git_repo : String)
    (raw_version : Option String) (repo_gx_hash : String) :
    Except PyErr (Option String × Option String) := do
  let version ←
    match raw_version with
    | none => pure none
    | some raw =>
      let sem_ver := "v" ++ raw
      match is_version_in_repo w git_repo sem_ver with
      | .error e => Except.error e
      | .ok true => pure (some sem_ver)
      | .ok false => pure none
  let commit ← get_commit_from_repo w git_repo repo_gx_hash
  pure (version, commit)

/-- `update_repo_to_go_mod`: forward the version when present, else the
commit, else raise `ValueError`.  The forwarded pair models the
`go get {git_repo}@{version_indicator}` invocation. -/
def update_repo_to_go_mod (git_repo : String) (version commit : Option String) :
    Except PyErr (String × String) :=
  match version with
  | some v => .ok (git_repo, v)
  | none =>
    match commit with
    | some c => .ok (git_repo, c)
    | none => .error .valueError

/-- Observable outcome of processing one dependency in `update_repos`:
either the update sink was invoked with an indicator, or the failure was
printed and the dependency skipped. -/
inductive Event where
  | updated (git_repo indicator : String)
  | failed (git_repo : String)
deriving DecidableEq, Repr

/-- `update_repos`: for each dependency resolve version/commit (exceptions
from the resolution queries propagate out of the loop — only `ValueError`
from `update_repo_to_go_mod` is caught, printed and skipped). -/
def update_repos (w : World) : List RepoVersion → Except PyErr (List Event)
  | [] => .ok []
  | rv :: rest =>
    match parse_version_from_repo_gx_hash w rv.git_repo rv.version rv.gx_hash with
    | .error e => .error e
    | .ok (version, commit) =>
      let ev :=
        match update_repo_to_go_mod rv.git_repo version commit with
        | .ok (_, indicator) => Event.updated rv.git_repo indicator
        | .error _ => Event.failed rv.git_repo
      match update_repos w rest with
      | .error e => .error e
      | .ok evs => .ok (ev :: evs)

/-! ### The dependency graph walk (`get_repo_deps`) -/

/-- One `gxDependencies` entry of a manifest: its `name` and `hash` keys. -/
structure DepInfo where
  name : String
  hash : String
deriving DecidableEq, Repr

/-- The fields of a parsed `package.json` that `get_repo_deps` reads.
`gxDependencies` is `none` when the key is absent, `gx_dvcsimport` models
`package_info['gx']['dvcsimport']` (`none` = a missing key, a `KeyError`
when accessed), `version` models the optional `version` key. -/
structure PackageInfo where
  gxDependencies : Option (List DepInfo)
  gx_dvcsimport : Option String
  version : Option String
deriving DecidableEq, Repr

/-- The child gx paths enqueued for a manifest. -/
def manifest_children (gxp : String) (info : PackageInfo) : List String :=
  (info.gxDependencies.getD []).map (fun d => make_gx_path gxp d.hash d.name)

/-- The mutable state of `get_repo_deps`'s loop.  `visited` is the
`visited_repos` set in insertion order (paths are appended exactly when the
manifest at that path is read, so it is also the trace of manifest reads);
`queue` is the work list (`list.pop()` removes the last element); `deps`
is the accumulated list of dependency records. -/
structure WalkState where
  visited : List String
  queue : List String
  deps : List RepoVersion
deriving DecidableEq, Repr

/-- Result of one iteration of the `while` loop. -/
inductive StepResult where
  | done (s : WalkState)
  | next (s : WalkState)
  | fail (e : PyErr)
deriving DecidableEq, Repr

/-- One iteration of `get_repo_deps`'s `while` loop over the manifest
filesystem `fs` (`fs p = none` models a missing or unparsable
`package.json`). -/
def walk_step (fs : String → Option PackageInfo) (gxp root_repo_path : String)
    (s : WalkState) : StepResult :=
  match s.queue.getLast? with
  | none => .done s
  | some repo_path =>
    let rest := s.queue.dropLast
    if repo_path ∈ s.visited then .next ⟨s.visited, rest, s.deps⟩
    else
      match fs repo_path with
      | none => .fail .manifestError
      | some info =>
        let queue2 := rest ++ manifest_children gxp info
        let visited2 := s.visited ++ [repo_path]
        if repo_path = root_repo_path then .next ⟨visited2, queue2, s.deps⟩
        else
          match info.gx_dvcsimport with
          | none => .fail .keyError
          | some pkg =>
            match extract_gx_hash gxp repo_path with
            | .error e => .fail e
            | .ok (gx_hash, gx_pkg_name) =>
              let rv : RepoVersion :=
                ⟨gx_hash, resolve_git_repo gx_pkg_name pkg, info.version, pkg⟩
              .next ⟨visited2, queue2, s.deps ++ [rv]⟩

/-- Outcome of running the loop with a fuel bound (the Python loop has no
bound; `outOfFuel` marks runs the given fuel could not finish). -/
inductive WalkOutcome where
  | finished (s : WalkState)
  | outOfFuel (s : WalkState)
  | failed (e : PyErr)
deriving DecidableEq, Repr

/-- Iterate `walk_step` until the queue empties or an exception escapes. -/
def walk_loop (fs : String → Option PackageInfo) (gxp root_repo_path : String) :
    Nat → WalkState → WalkOutcome
  | 0, s => .outOfFuel s
  | fuel + 1, s =>
    match walk_step fs gxp root_repo_path s with
    | .done s2 => .finished s2
    | .next s2 => walk_loop fs gxp root_repo_path fuel s2
    | .fail e => .failed e

/-- Result of `get_repo_deps` as a whole. -/
inductive RunResult where
  | ok (deps : List RepoVersion)
  | outOfFuel
  | error (e : PyErr)
deriving DecidableEq, Repr

/-- `get_repo_deps`: run the walk from the root and keep only records whose
git repo contains `"github.com"`. -/
def get_repo_deps (fs : String → Option PackageInfo) (gxp : String) (fuel : Nat)
    (root_repo_path : String) : RunResult :=
  match walk_loop fs gxp root_repo_path fuel ⟨[], [root_repo_path], []⟩ with
  | .finished s => .ok (s.deps.filter (fun rv => pyContains "github.com" rv.git_repo))
  | .outOfFuel _ => .outOfFuel
  | .failed e => .error e

/-- The dependency record that the walk constructs for a non-root path `p`,
recomputed from the manifest filesystem (used to state that every visited
non-root node contributes exactly this record once). -/
def dep_record_of (fs : String → Option PackageInfo) (gxp p : String) : RepoVersion :=
  match fs p with
  | none => ⟨"", "", none, ""⟩
  | some info =>
    let pkg := info.gx_dvcsimport.getD ""
    match extract_gx_hash gxp p with
    | .error _ => ⟨"", "", info.version, pkg⟩
    | .ok (gx_hash, gx_pkg_name) =>
      ⟨gx_hash, resolve_git_repo gx_pkg_name pkg, info.version, pkg⟩

/-- Loop invariant tying a walk state to a finite universe `S` of paths:
every queued path lies in `S` and is the root or has `make_gx_path` shape,
every visited path lies in `S`, no path was visited (hence read) twice, and
the accumulated records are exactly one record per visited non-root path,
in visiting order. -/
def WalkInv (fs : String → Option PackageInfo) (gxp root_repo_path : String)
    (S : List String) (s : WalkState) : Prop :=
  (∀ p ∈ s.queue, p ∈ S) ∧
  (∀ p ∈ s.queue, p = root_repo_path ∨ ∃ h n, p = make_gx_path gxp h n) ∧
  (∀ p ∈ s.visited, p ∈ S) ∧
  s.visited.Nodup ∧
  s.deps = (s.visited.filter (fun p => p != root_repo_path)).map (dep_record_of fs gxp)

/-- Number of children the walk would enqueue at path `p`. -/
def child_count (fs : String → Option PackageInfo) (gxp p : String) : Nat :=
  (manifest_children gxp ((fs p).getD ⟨none, none, none⟩)).length

/-- Upper bound on the number of children of any single path in `S`. -/
def walkBound (fs : String → Option PackageInfo) (gxp : String) (S : List String) : Nat :=
  (S.map (child_count fs gxp)).foldr Nat.max 0

/-- Termination measure of the walk: unvisited paths of `S`, weighted by the
maximal enqueue burst, plus the pending queue length. -/
def walkMeasure (fs : String → Option PackageInfo) (gxp : String) (S : List String)
    (s : WalkState) : Nat :=
  (S.toFinset.card - s.visited.length) * (walkBound fs gxp S + 1) + s.queue.length

example : resolve_git_repo "go-nat" "x" = "github.com/gxed/go-nat" := by decide
example : resolve_git_repo "unknown" "example.com/org/repo/sub/pkg" = "example.com/org/repo" := by decide
example : pyIntBase16Valid "5a13bddfa3a06705681ade8e1d4ea85374b6b12e" = true := by decide
example : pyIntBase16Valid "" = false := by decide
example : pyIntBase16Valid "xyz" = false := by decide
example : pySplit ':' "" = [""] := by decide
example : pySplit ':' "a:b" = ["a", "b"] := by decide
example : extract_gx_hash "g" (make_gx_path "g" "h1" "n1") = .ok ("h1", "n1") := by decide

/-! ### Helper lemmas about the Python string primitives -/

theorem str_data_append (s t : String) : (s ++ t).data = s.data ++ t.data := rfl

theorem str_mk_data (s : String) : String.mk s.data = s := rfl

theorem pySplitCore_ne_nil (sep : Char) (l : List Char) : pySplitCore sep l ≠ [] := by
  cases l with
  | nil => simp [pySplitCore]
  | cons c rest =>
    rw [pySplitCore]
    cases h : pySplitCore sep rest with
    | nil => simp
    | cons a t => by_cases hc : c = sep <;> simp [hc]

theorem pySplitCore_eq_single {sep : Char} :
    ∀ {l : List Char}, sep ∉ l → pySplitCore sep l = [l] := by
  intro l
  induction l with
  | nil => intro _; rfl
  | cons c rest ih =>
    intro h
    rw [List.mem_cons, not_or] at h
    rw [pySplitCore, ih h.2]
    have hcs : ¬ c = sep := fun e => h.1 e.symm
    simp [hcs]

theorem pySplitCore_append {sep : Char} :
    ∀ {l1 l2 : List Char}, sep ∉ l1 →
      pySplitCore sep (l1 ++ sep :: l2) = l1 :: pySplitCore sep l2 := by
  intro l1
  induction l1 with
  | nil =>
    intro l2 _
    obtain ⟨a, t, he⟩ := List.exists_cons_of_ne_nil (pySplitCore_ne_nil sep l2)
    rw [List.nil_append, pySplitCore, he]
    simp
  | cons c r1 ih =>
    intro l2 h
    rw [List.mem_cons, not_or] at h
    rw [List.cons_append, pySplitCore, ih h.2]
    have hcs : ¬ c = sep := fun e => h.1 e.symm
    simp [hcs]

theorem pySplit_ne_nil (sep : Char) (s : String) : pySplit sep s ≠ [] := by
  unfold pySplit
  simp [pySplitCore_ne_nil]

/-- C9: round-trip of the gx path codec: for every gx hash and package name
that are non-empty and contain no `'/'`, `extract_gx_hash` applied to
`make_gx_path` recovers the pair, for any value of the `GX_PREFIX`
directory. -/
theorem extract_gx_hash_make_gx_path (gxp h n : String)
    (_hh : h ≠ "") (_hn : n ≠ "") (hsh : '/' ∉ h.data) (hsn : '/' ∉ n.data) :
    extract_gx_hash gxp (make_gx_path gxp h n) = .ok (h, n) := by
  have hdata : (make_gx_path gxp h n).data = gxp.data ++ '/' :: (h.data ++ '/' :: n.data) := by
    unfold make_gx_path
    rw [str_data_append, str_data_append, str_data_append, str_data_append]
    simp
  have hpre : pyStartsWith (make_gx_path gxp h n) gxp = true := by
    rw [pyStartsWith, hdata, List.isPrefixOf_iff_prefix]
    exact List.prefix_append _ _
  have hdrop : pyDrop (make_gx_path gxp h n) (gxp.length + 1) =
      String.mk (h.data ++ '/' :: n.data) := by
    rw [pyDrop, hdata]
    have : gxp.data ++ '/' :: (h.data ++ '/' :: n.data) =
        (gxp.data ++ ['/']) ++ (h.data ++ '/' :: n.data) := by simp
    rw [this]
    have hlen : gxp.length + 1 = (gxp.data ++ ['/']).length := by
      rw [List.length_append]
      rfl
    rw [hlen, List.drop_left]
  have hsplit : pySplit '/' (String.mk (h.data ++ '/' :: n.data)) = [h, n] := by
    rw [pySplit]
    show (pySplitCore '/' (h.data ++ '/' :: n.data)).map String.mk = [h, n]
    rw [pySplitCore_append hsh, pySplitCore_eq_single hsn]
    simp [str_mk_data]
  rw [extract_gx_hash, hdrop, hsplit]
  simp [hpre]

theorem extract_gx_hash_make_witness :
    ("QmHash1" : String) ≠ "" ∧ ("go-pkg" : String) ≠ "" ∧
      '/' ∉ ("QmHash1" : String).data ∧ '/' ∉ ("go-pkg" : String).data ∧
      extract_gx_hash "/go/src/gx/ipfs" (make_gx_path "/go/src/gx/ipfs" "QmHash1" "go-pkg") =
        .ok ("QmHash1", "go-pkg") :=
  ⟨by decide, by decide, by decide, by decide,
    extract_gx_hash_make_gx_path "/go/src/gx/ipfs" "QmHash1" "go-pkg"
      (by decide) (by decide) (by decide) (by decide)⟩

/-- C10: splitting any string on `':'` yields at least one field, so the
`IndexError` handler in `get_commit_from_repo` is unreachable: whenever the
search process exits 0 the function returns `.ok` (never the parse-failure
error), and empty search output falls into the base-16 check and yields
`none`. -/
theorem get_commit_index_error_unreachable :
    (∀ s : String, pySplit ':' s ≠ []) ∧
    (∀ (w : World) (git_repo gx_hash : String),
      (w.grep_of git_repo gx_hash).returncode = 0 →
      ∃ o, get_commit_from_repo w git_repo gx_hash = .ok o) ∧
    (∀ (w : World) (git_repo gx_hash : String),
      w.grep_of git_repo gx_hash = ⟨0, ""⟩ →
      get_commit_from_repo w git_repo gx_hash = .ok none) := by
  refine ⟨pySplit_ne_nil ':', ?_, ?_⟩
  · intro w git_repo gx_hash hrc
    obtain ⟨a, t, he⟩ :=
      List.exists_cons_of_ne_nil (pySplit_ne_nil ':' (w.grep_of git_repo gx_hash).stdout)
    rw [get_commit_from_repo]
    simp only [hrc, he]
    by_cases hv : pyIntBase16Valid a <;> by_cases hl : a.length = 40 <;>
      simp [hv, hl]
  · intro w git_repo gx_hash hres
    rw [get_commit_from_repo, hres]
    decide

theorem get_commit_index_error_unreachable_witness :
    ((⟨fun _ => ⟨0, ""⟩, fun _ _ => ⟨0, "deadbeef"⟩⟩ : World).grep_of "r" "h").returncode = 0 ∧
    (∃ o, get_commit_from_repo ⟨fun _ => ⟨0, ""⟩, fun _ _ => ⟨0, "deadbeef"⟩⟩ "r" "h" = .ok o) ∧
    get_commit_from_repo ⟨fun _ => ⟨0, ""⟩, fun _ _ => ⟨0, ""⟩⟩ "r2" "h2" = .ok none :=
  ⟨rfl,
    (get_commit_index_error_unreachable.2.1 ⟨fun _ => ⟨0, ""⟩, fun _ _ => ⟨0, "deadbeef"⟩⟩
      "r" "h" rfl),
    (get_commit_index_error_unreachable.2.2 ⟨fun _ => ⟨0, ""⟩, fun _ _ => ⟨0, ""⟩⟩
      "r2" "h2" rfl)⟩

/-! ### Hex-token validity lemmas (for the commit resolver) -/

theorem hex_not_space {c : Char} (hc : isHexDigitChar c = true) : pyIsSpace c = false := by
  by_contra hsp
  rw [Bool.not_eq_false, pyIsSpace] at hsp
  simp only [Bool.or_eq_true, decide_eq_true_eq] at hsp
  rcases hsp with ((((rfl | rfl) | rfl) | rfl) | rfl) | rfl <;> exact absurd hc (by decide)

theorem hex_ne_sign {c : Char} (hc : isHexDigitChar c = true) :
    (c = '+' || c = '-') = false := by
  by_contra hs
  rw [Bool.not_eq_false] at hs
  simp only [Bool.or_eq_true, decide_eq_true_eq] at hs
  rcases hs with rfl | rfl <;> exact absurd hc (by decide)

theorem dropWhile_space_allhex {l : List Char} (h : l.all isHexDigitChar = true) :
    l.dropWhile pyIsSpace = l := by
  cases l with
  | nil => rfl
  | cons c t =>
    rw [List.all_cons, Bool.and_eq_true] at h
    rw [List.dropWhile_cons, hex_not_space h.1]
    simp

theorem pyStrip_allhex {l : List Char} (h : l.all isHexDigitChar = true) :
    pyStrip l = l := by
  rw [pyStrip, dropWhile_space_allhex h,
    dropWhile_space_allhex (by rw [List.all_reverse]; exact h), List.reverse_reverse]

theorem hexTail_allhex : ∀ {l : List Char}, l.all isHexDigitChar = true → hexTail l = true := by
  intro l
  induction l with
  | nil => intro _; rfl
  | cons c t ih =>
    intro h
    rw [List.all_cons, Bool.and_eq_true] at h
    have hne : ¬ c = '_' := by
      intro e; rw [e] at h; exact absurd h.1 (by decide)
    rw [hexTail.eq_def]
    simp only [if_neg hne]
    rw [h.1, ih h.2]
    rfl

theorem pyAfterSign_allhex : ∀ {l : List Char}, l ≠ [] → l.all isHexDigitChar = true →
    pyAfterSign l = true := by
  intro l hne h
  cases l with
  | nil => exact absurd rfl hne
  | cons c t =>
    rw [List.all_cons, Bool.and_eq_true] at h
    have hbody : pyHexBody (c :: t) = true := by
      rw [pyHexBody, h.1, hexTail_allhex h.2]
      rfl
    rw [pyAfterSign.eq_def]
    simp only []
    by_cases h0 : c = '0'
    · simp only [if_pos h0]
      cases t with
      | nil => rfl
      | cons d t2 =>
        rw [List.all_cons, Bool.and_eq_true] at h
        have hd := h.2
        have hdx : (d = 'x' || d = 'X') = false := by
          by_contra hx
          rw [Bool.not_eq_false] at hx
          simp only [Bool.or_eq_true, decide_eq_true_eq] at hx
          rcases hx with rfl | rfl <;> exact absurd hd.1 (by decide)
        simp only [hdx, Bool.false_eq_true, if_false]
        exact hbody
    · simp only [if_neg h0]
      exact hbody

theorem pyIntBase16Valid_allhex {s : String} (hne : s.data ≠ [])
    (h : s.data.all isHexDigitChar = true) : pyIntBase16Valid s = true := by
  rw [pyIntBase16Valid, pyStrip_allhex h]
  cases hd : s.data with
  | nil => exact absurd hd hne
  | cons c t =>
    rw [hd] at h
    have hall := h
    rw [List.all_cons, Bool.and_eq_true] at hall
    rw [pyAfterSpace]
    simp only [hex_ne_sign hall.1, Bool.false_eq_true, if_false]
    exact pyAfterSign_allhex (List.cons_ne_nil c t) h

/-- C4 counterexample: the token `"0x" ++ 38 hex digits` has length 40 and
contains the non-hex character `'x'`, yet `int(token, 16)` accepts it, so
`get_commit_from_repo` returns it instead of `none` — refuting that every
token containing a non-hex character yields absence and that a malformed
commit id is never returned. -/
theorem commit_token_nonhex_returned :
    get_commit_from_repo
        ⟨fun _ => ⟨0, ""⟩, fun _ _ => ⟨0, "0xaaaaaaaaaaaaaaaaaaaaaaaaaaaaaaaaaaaaaa"⟩⟩
        "github.com/o/r" "QmHash" =
      .ok (some "0xaaaaaaaaaaaaaaaaaaaaaaaaaaaaaaaaaaaaaa") ∧
    ("0xaaaaaaaaaaaaaaaaaaaaaaaaaaaaaaaaaaaaaa" : String).data.all isHexDigitChar = false ∧
    ("0xaaaaaaaaaaaaaaaaaaaaaaaaaaaaaaaaaaaaaa" : String).length = 40 := by
  refine ⟨?_, by decide, by decide⟩
  decide

/-- C4 amended: the candidate token (field 0 of the search output split on
`':'`) is returned exactly when `int(token, 16)` succeeds — under CPython's
rules, which also accept surrounding whitespace, a sign, a `0x`/`0X`
marker and underscores between digits — and the token has length exactly
40.  In particular a token of length 39 yields `none`, a token rejected by
the base-16 check yields `none`, and a 40-character token consisting
solely of hex digits is returned; but a 40-character token containing such
non-hex marker characters can be returned. -/
theorem get_commit_token_policy :
    ∀ (w : World) (git_repo gx_hash tok : String),
    (w.grep_of git_repo gx_hash).returncode = 0 →
    (pySplit ':' (w.grep_of git_repo gx_hash).stdout).head? = some tok →
    (get_commit_from_repo w git_repo gx_hash = .ok (some tok) ↔
      (pyIntBase16Valid tok = true ∧ tok.length = 40)) ∧
    (tok.length = 39 → get_commit_from_repo w git_repo gx_hash = .ok none) ∧
    (pyIntBase16Valid tok = false → get_commit_from_repo w git_repo gx_hash = .ok none) ∧
    (tok.data.all isHexDigitChar = true ∧ tok.length = 40 →
      get_commit_from_repo w git_repo gx_hash = .ok (some tok)) := by
  intro w git_repo gx_hash tok hrc hhead
  have hrun : get_commit_from_repo w git_repo gx_hash =
      (if ¬ pyIntBase16Valid tok then .ok none
       else if tok.length ≠ 40 then .ok none
       else .ok (some tok)) := by
    rw [get_commit_from_repo]
    simp only [hrc, hhead]
    simp
  refine ⟨?_, ?_, ?_, ?_⟩
  · constructor
    · intro heq
      by_cases hv : pyIntBase16Valid tok
      · by_cases hl : tok.length = 40
        · exact ⟨hv, hl⟩
        · rw [hrun] at heq; simp [hv, hl] at heq
      · rw [hrun] at heq; simp [hv] at heq
    · intro ⟨hv, hl⟩
      rw [hrun]
      simp [hv, hl]
  · intro h39
    rw [hrun]
    have : tok.length ≠ 40 := by omega
    simp [this]
  · intro hv
    rw [hrun]
    simp [hv]
  · intro ⟨hall, hl⟩
    have hne : tok.data ≠ [] := by
      intro he
      rw [String.length, he] at hl
      simp at hl
    rw [hrun]
    simp [pyIntBase16Valid_allhex hne hall, hl]

theorem get_commit_token_policy_witness :
    ((⟨fun _ => ⟨0, ""⟩,
        fun _ _ => ⟨0, "5a13bddfa3a06705681ade8e1d4ea85374b6b12e:README.md:QmFoo"⟩⟩ :
          World).grep_of "r" "h").returncode = 0 ∧
    get_commit_from_repo
        ⟨fun _ => ⟨0, ""⟩,
          fun _ _ => ⟨0, "5a13bddfa3a06705681ade8e1d4ea85374b6b12e:README.md:QmFoo"⟩⟩
        "r" "h" = .ok (some "5a13bddfa3a06705681ade8e1d4ea85374b6b12e") := by
  refine ⟨rfl, ?_⟩
  exact (get_commit_token_policy
    ⟨fun _ => ⟨0, ""⟩,
      fun _ _ => ⟨0, "5a13bddfa3a06705681ade8e1d4ea85374b6b12e:README.md:QmFoo"⟩⟩
    "r" "h" "5a13bddfa3a06705681ade8e1d4ea85374b6b12e" rfl (by decide)).2.2.2
    ⟨by decide, by decide⟩

/-! ### Lookup lemmas for the override table -/

theorem lookup_filter_self (k : String) :
    ∀ l : List (String × String), (l.filter (fun e => e.fst != k)).lookup k = none := by
  intro l
  induction l with
  | nil => rfl
  | cons a t ih =>
    obtain ⟨a1, a2⟩ := a
    by_cases h : a1 = k
    · subst h
      simpa [List.filter_cons] using ih
    · have hb : (a1 != k) = true := by simp [h]
      rw [List.filter_cons]
      simp only [hb, if_true]
      rw [List.lookup_cons]
      have : (k == a1) = false := by
        simp only [beq_eq_false_iff_ne, ne_eq]
        exact fun e => h e.symm
      simp only [this]
      exact ih

theorem lookup_filter_other {k n : String} (hn : n ≠ k) :
    ∀ l : List (String × String),
      (l.filter (fun e => e.fst != k)).lookup n = l.lookup n := by
  intro l
  induction l with
  | nil => rfl
  | cons a t ih =>
    obtain ⟨a1, a2⟩ := a
    by_cases h : a1 = k
    · subst h
      have hb : (a1 != a1) = false := by simp
      rw [List.filter_cons]
      simp only [hb, Bool.false_eq_true, if_false]
      rw [ih, List.lookup_cons]
      have : (n == a1) = false := by
        simp only [beq_eq_false_iff_ne, ne_eq]
        exact hn
      simp only [this]
    · have hb : (a1 != k) = true := by simp [h]
      rw [List.filter_cons]
      simp only [hb, if_true]
      rw [List.lookup_cons, List.lookup_cons, ih]

/-- C6: repository location resolution is a total pure function: the
excluded key `"bbloom"` always falls back to the dvcsimport derivation, any
other key resolves through the full override table when present there and
falls back otherwise, and the derivation keeps exactly the first three
slash-separated segments (`locate("unknown", "example.com/org/repo/sub/pkg")
= "example.com/org/repo"`). -/
theorem resolve_git_repo_policy :
    (∀ pkg, resolve_git_repo "bbloom" pkg = dvcsimport_to_git_repo pkg) ∧
    (∀ gx_pkg_name pkg, gx_pkg_name ≠ "bbloom" →
      resolve_git_repo gx_pkg_name pkg =
        match gxed_repo_map_full.lookup gx_pkg_name with
        | some git_repo => git_repo
        | none => dvcsimport_to_git_repo pkg) ∧
    resolve_git_repo "unknown" "example.com/org/repo/sub/pkg" = "example.com/org/repo" := by
  refine ⟨?_, ?_, by decide⟩
  · intro pkg
    rw [resolve_git_repo, get_gxed_repos_from_github, lookup_filter_self]
  · intro gx_pkg_name pkg hne
    rw [resolve_git_repo, get_gxed_repos_from_github, lookup_filter_other hne]

theorem resolve_git_repo_policy_witness :
    resolve_git_repo "bbloom" "a/b/c/d" = dvcsimport_to_git_repo "a/b/c/d" ∧
    resolve_git_repo "go-nat" "zz" = "github.com/gxed/go-nat" := by
  refine ⟨resolve_git_repo_policy.1 "a/b/c/d", ?_⟩
  exact (resolve_git_repo_policy.2.1 "go-nat" "zz" (by decide)).trans (by decide)

/-! ### Version resolution and the forwarding policy -/

theorem get_commit_congr {w w2 : World} (h : w.grep_of = w2.grep_of)
    (git_repo gx_hash : String) :
    get_commit_from_repo w git_repo gx_hash = get_commit_from_repo w2 git_repo gx_hash := by
  rw [get_commit_from_repo, get_commit_from_repo, h]

/-- C5: version resolution policy: when no version is declared the tag
listing is never consulted (the outcome does not depend on it at all) and
no version is proposed; when a version is declared the check succeeds
exactly on literal membership of `"v" ++ declared_version` in the
newline-split tag listing — so `"1.2.3"` resolves true against a listing
containing `"v1.2.3"` and false against the listing `"v1.2.2"`. -/
theorem version_resolution_policy :
    (∀ (w w2 : World) (git_repo repo_gx_hash : String), w.grep_of = w2.grep_of →
      parse_version_from_repo_gx_hash w git_repo none repo_gx_hash =
        parse_version_from_repo_gx_hash w2 git_repo none repo_gx_hash) ∧
    (∀ (w : World) (git_repo repo_gx_hash : String) (out : Option String × Option String),
      parse_version_from_repo_gx_hash w git_repo none repo_gx_hash = .ok out →
      out.1 = none) ∧
    (∀ (w : World) (git_repo raw : String), (w.tag_of git_repo).returncode = 0 →
      (is_version_in_repo w git_repo ("v" ++ raw) = .ok true ↔
        ("v" ++ raw) ∈ pySplit '\n' (w.tag_of git_repo).stdout)) ∧
    (∀ (w : World) (git_repo : String), w.tag_of git_repo = ⟨0, "v1.2.2\nv1.2.3"⟩ →
      is_version_in_repo w git_repo ("v" ++ "1.2.3") = .ok true) ∧
    (∀ (w : World) (git_repo : String), w.tag_of git_repo = ⟨0, "v1.2.2"⟩ →
      is_version_in_repo w git_repo ("v" ++ "1.2.3") = .ok false) := by
  refine ⟨?_, ?_, ?_, ?_, ?_⟩
  · intro w w2 git_repo repo_gx_hash h
    rw [parse_version_from_repo_gx_hash, parse_version_from_repo_gx_hash,
      get_commit_congr h]
  · intro w git_repo repo_gx_hash out hout
    rw [parse_version_from_repo_gx_hash] at hout
    cases hc : get_commit_from_repo w git_repo repo_gx_hash with
    | error e =>
      rw [hc] at hout
      simp [Bind.bind, Except.bind, pure, Except.pure] at hout
    | ok commit =>
      rw [hc] at hout
      simp only [Bind.bind, Except.bind, pure, Except.pure, Except.ok.injEq] at hout
      rw [← hout]
  · intro w git_repo raw hrc
    rw [is_version_in_repo]
    simp only [hrc]
    simp
  · intro w git_repo htag
    rw [is_version_in_repo, htag]
    decide
  · intro w git_repo htag
    rw [is_version_in_repo, htag]
    decide

theorem version_resolution_policy_witness :
    parse_version_from_repo_gx_hash ⟨fun _ => ⟨0, "v9"⟩, fun _ _ => ⟨0, ""⟩⟩ "r" none "h" =
      parse_version_from_repo_gx_hash ⟨fun _ => ⟨1, ""⟩, fun _ _ => ⟨0, ""⟩⟩ "r" none "h" ∧
    (parse_version_from_repo_gx_hash ⟨fun _ => ⟨0, "v9"⟩, fun _ _ => ⟨0, ""⟩⟩ "r" none "h" =
        .ok (none, none) → ((none, none) : Option String × Option String).1 = none) ∧
    (is_version_in_repo ⟨fun _ => ⟨0, "v1.2.2\nv1.2.3"⟩, fun _ _ => ⟨0, ""⟩⟩ "r"
        ("v" ++ "1.2.3") = .ok true ↔
      ("v" ++ "1.2.3") ∈ pySplit '\n'
        ((⟨fun _ => ⟨0, "v1.2.2\nv1.2.3"⟩, fun _ _ => ⟨0, ""⟩⟩ : World).tag_of "r").stdout) ∧
    is_version_in_repo ⟨fun _ => ⟨0, "v1.2.2\nv1.2.3"⟩, fun _ _ => ⟨0, ""⟩⟩ "r"
      ("v" ++ "1.2.3") = .ok true ∧
    is_version_in_repo ⟨fun _ => ⟨0, "v1.2.2"⟩, fun _ _ => ⟨0, ""⟩⟩ "r"
      ("v" ++ "1.2.3") = .ok false :=
  ⟨version_resolution_policy.1 ⟨fun _ => ⟨0, "v9"⟩, fun _ _ => ⟨0, ""⟩⟩
      ⟨fun _ => ⟨1, ""⟩, fun _ _ => ⟨0, ""⟩⟩ "r" "h" rfl,
    version_resolution_policy.2.1 ⟨fun _ => ⟨0, "v9"⟩, fun _ _ => ⟨0, ""⟩⟩ "r" "h" (none, none),
    version_resolution_policy.2.2.1 ⟨fun _ => ⟨0, "v1.2.2\nv1.2.3"⟩, fun _ _ => ⟨0, ""⟩⟩
      "r" "1.2.3" rfl,
    version_resolution_policy.2.2.2.1 ⟨fun _ => ⟨0, "v1.2.2\nv1.2.3"⟩, fun _ _ => ⟨0, ""⟩⟩
      "r" rfl,
    version_resolution_policy.2.2.2.2 ⟨fun _ => ⟨0, "v1.2.2"⟩, fun _ _ => ⟨0, ""⟩⟩ "r" rfl⟩

/-- C2: for every dependency whose resolution succeeds, the update phase
forwards the version when one was found (taking precedence over a found
commit), else forwards the commit, and when neither was found forwards
nothing: the failure is reported as a `failed` event and processing
continues with the remaining dependencies. -/
theorem update_forward_policy :
    ∀ (w : World) (rv : RepoVersion) (rest : List RepoVersion)
      (version commit : Option String),
    parse_version_from_repo_gx_hash w rv.git_repo rv.version rv.gx_hash = .ok (version, commit) →
    update_repos w (rv :: rest) =
      (update_repos w rest).map (fun evs =>
        (match version, commit with
         | some v, _ => Event.updated rv.git_repo v
         | none, some c => Event.updated rv.git_repo c
         | none, none => Event.failed rv.git_repo) :: evs) := by
  intro w rv rest version commit h
  rw [update_repos, h]
  cases version <;> cases commit <;>
    cases hrest : update_repos w rest <;>
      simp [update_repo_to_go_mod, Except.map]

theorem update_forward_policy_witness :
    update_repos
        ⟨fun _ => ⟨0, "v1.0.0"⟩, fun _ _ => ⟨0, "5a13bddfa3a06705681ade8e1d4ea85374b6b12e:x"⟩⟩
        [⟨"QmA", "github.com/o/r", some "1.0.0", "github.com/o/r/p"⟩] =
      (update_repos
          ⟨fun _ => ⟨0, "v1.0.0"⟩, fun _ _ => ⟨0, "5a13bddfa3a06705681ade8e1d4ea85374b6b12e:x"⟩⟩
          []).map (fun evs =>
        (match (some "v1.0.0" : Option String),
            (some "5a13bddfa3a06705681ade8e1d4ea85374b6b12e" : Option String) with
         | some v, _ => Event.updated "github.com/o/r" v
         | none, some c => Event.updated "github.com/o/r" c
         | none, none => Event.failed "github.com/o/r") :: evs) :=
  update_forward_policy
    ⟨fun _ => ⟨0, "v1.0.0"⟩, fun _ _ => ⟨0, "5a13bddfa3a06705681ade8e1d4ea85374b6b12e:x"⟩⟩
    ⟨"QmA", "github.com/o/r", some "1.0.0", "github.com/o/r/p"⟩ []
    (some "v1.0.0") (some "5a13bddfa3a06705681ade8e1d4ea85374b6b12e") (by decide)

/-- C3 counterexample: a failing tag-listing query (`GetVersionFailure`)
while resolving the first dependency aborts `update_repos` entirely — the
run does not terminate successfully and the sibling dependency, which on
its own would resolve and be updated, is never processed. -/
theorem query_failure_not_isolated :
    update_repos
        ⟨fun r => if r = "github.com/a/b" then ⟨1, ""⟩ else ⟨0, "v2.0.0"⟩, fun _ _ => ⟨0, ""⟩⟩
        [⟨"h1", "github.com/a/b", some "1.0.0", "p1"⟩,
         ⟨"h2", "github.com/c/d", some "2.0.0", "p2"⟩] =
      .error .getVersionFailure ∧
    update_repos
        ⟨fun r => if r = "github.com/a/b" then ⟨1, ""⟩ else ⟨0, "v2.0.0"⟩, fun _ _ => ⟨0, ""⟩⟩
        [⟨"h2", "github.com/c/d", some "2.0.0", "p2"⟩] =
      .ok [.updated "github.com/c/d" "v2.0.0"] := by
  constructor <;> decide

/-- C3 amended: a per-dependency resolution failure is NOT isolated: when
the tag-listing or commit-search query for one dependency raises
`GetVersionFailure`/`GetCommitFailure`, the exception propagates out of
`update_repos` (resolution happens outside the `try` block, which only
catches `ValueError`), so the remaining sibling dependencies are not
processed and the run aborts; only the "neither version nor commit found"
case is caught and skipped. -/
theorem resolution_failure_aborts_run :
    ∀ (w : World) (rv : RepoVersion) (rest : List RepoVersion) (e : PyErr),
    parse_version_from_repo_gx_hash w rv.git_repo rv.version rv.gx_hash = .error e →
    update_repos w (rv :: rest) = .error e := by
  intro w rv rest e h
  rw [update_repos, h]

theorem resolution_failure_aborts_run_witness :
    update_repos ⟨fun _ => ⟨1, ""⟩, fun _ _ => ⟨0, ""⟩⟩
      [⟨"h1", "github.com/a/b", some "1.0.0", "p1"⟩,
       ⟨"h9", "github.com/x/y", some "3.0.0", "p9"⟩] = .error .getVersionFailure :=
  resolution_failure_aborts_run ⟨fun _ => ⟨1, ""⟩, fun _ _ => ⟨0, ""⟩⟩
    ⟨"h1", "github.com/a/b", some "1.0.0", "p1"⟩
    [⟨"h9", "github.com/x/y", some "3.0.0", "p9"⟩] .getVersionFailure (by decide)

/-- C7: whenever the walk finishes, `get_repo_deps` returns (without error)
exactly the accumulated records filtered to those whose repository location
contains the substring `"github.com"`; every record in the returned set
contains it, and every fully discovered record lacking it is silently
omitted from the result. -/
theorem github_filter_final :
    ∀ (fs : String → Option PackageInfo) (gxp : String) (fuel : Nat)
      (root_repo_path : String) (s : WalkState),
    walk_loop fs gxp root_repo_path fuel ⟨[], [root_repo_path], []⟩ = .finished s →
    get_repo_deps fs gxp fuel root_repo_path =
        .ok (s.deps.filter (fun rv => pyContains "github.com" rv.git_repo)) ∧
    (∀ rv ∈ s.deps.filter (fun rv => pyContains "github.com" rv.git_repo),
        pyContains "github.com" rv.git_repo = true) ∧
    (∀ rv ∈ s.deps, pyContains "github.com" rv.git_repo = false →
        rv ∉ s.deps.filter (fun rv => pyContains "github.com" rv.git_repo)) := by
  intro fs gxp fuel root_repo_path s h
  refine ⟨by rw [get_repo_deps, h], fun rv hm => (List.mem_filter.mp hm).2, ?_⟩
  intro rv _ hfalse hmem
  have hrv := (List.mem_filter.mp hmem).2
  rw [hfalse] at hrv
  exact Bool.false_ne_true hrv

theorem github_filter_final_witness :
    get_repo_deps
        (fun p =>
          if p = "r" then some ⟨some [⟨"n", "h"⟩], none, none⟩
          else if p = "g/h/n" then some ⟨none, some "example.org/x/y/z", some "1"⟩
          else none)
        "g" 3 "r" = .ok [] := by
  have h := (github_filter_final
    (fun p =>
      if p = "r" then some ⟨some [⟨"n", "h"⟩], none, none⟩
      else if p = "g/h/n" then some ⟨none, some "example.org/x/y/z", some "1"⟩
      else none)
    "g" 3 "r"
    ⟨["r", "g/h/n"], [], [⟨"h", "example.org/x/y", some "1", "example.org/x/y/z"⟩]⟩
    (by decide)).1
  rw [h]
  decide

/-- C8: a missing or unparsable manifest at a visited (not yet seen) path
makes the current loop iteration fail with the manifest-read error, and any
failing walk makes `get_repo_deps` propagate the error to its caller, never
returning a partial dependency list. -/
theorem manifest_failure_fatal :
    (∀ (fs : String → Option PackageInfo) (gxp root_repo_path : String) (s : WalkState)
      (p : String), s.queue.getLast? = some p → p ∉ s.visited → fs p = none →
      walk_step fs gxp root_repo_path s = .fail .manifestError) ∧
    (∀ (fs : String → Option PackageInfo) (gxp : String) (fuel : Nat)
      (root_repo_path : String) (e : PyErr),
      walk_loop fs gxp root_repo_path fuel ⟨[], [root_repo_path], []⟩ = .failed e →
      get_repo_deps fs gxp fuel root_repo_path = .error e) := by
  constructor
  · intro fs gxp root_repo_path s p hlast hvis hfs
    rw [walk_step, hlast]
    simp only [hvis, if_false, hfs]
  · intro fs gxp fuel root_repo_path e h
    rw [get_repo_deps, h]

theorem manifest_failure_fatal_witness :
    walk_step (fun _ => none) "g" "r" ⟨[], ["r"], []⟩ = .fail .manifestError ∧
    get_repo_deps (fun _ => none) "g" 1 "r" = .error .manifestError :=
  ⟨manifest_failure_fatal.1 (fun _ => none) "g" "r" ⟨[], ["r"], []⟩ "r" rfl
      (by decide) rfl,
    manifest_failure_fatal.2 (fun _ => none) "g" 1 "r" .manifestError (by decide)⟩

/-! ### Helper lemmas for the graph-walk proof -/

theorem le_foldr_max : ∀ (l : List Nat) (x : Nat), x ∈ l → x ≤ l.foldr Nat.max 0 := by
  intro l
  induction l with
  | nil => intro x hx; cases hx
  | cons a t ih =>
    intro x hx
    rcases List.mem_cons.mp hx with rfl | hx2
    · exact Nat.le_max_left _ _
    · exact Nat.le_trans (ih x hx2) (Nat.le_max_right _ _)

theorem child_count_le_walkBound {fs : String → Option PackageInfo} {gxp : String}
    {S : List String} {p : String} (hp : p ∈ S) :
    child_count fs gxp p ≤ walkBound fs gxp S :=
  le_foldr_max _ _ (List.mem_map_of_mem _ hp)

theorem nodup_subset_length_le {l S : List String} (hn : l.Nodup)
    (hsub : ∀ p ∈ l, p ∈ S) : l.length ≤ S.toFinset.card := by
  rw [← List.toFinset_card_of_nodup hn]
  apply Finset.card_le_card
  intro x hx
  rw [List.mem_toFinset] at hx
  rw [List.mem_toFinset]
  exact hsub x hx

theorem mem_of_getLast?_eq {α : Type u} {l : List α} {a : α}
    (h : l.getLast? = some a) : a ∈ l := by
  cases l with
  | nil => simp at h
  | cons b t =>
    have hne : b :: t ≠ [] := List.cons_ne_nil b t
    rw [List.getLast?_eq_getLast _ hne] at h
    injection h with h2
    rw [← h2]
    exact List.getLast_mem hne

theorem two_le_pySplitCore_length {sep : Char} :
    ∀ {l : List Char}, sep ∈ l → 2 ≤ (pySplitCore sep l).length := by
  intro l
  induction l with
  | nil => intro h; cases h
  | cons c rest ih =>
    intro h
    obtain ⟨a, t, hcr⟩ := List.exists_cons_of_ne_nil (pySplitCore_ne_nil sep rest)
    rw [pySplitCore, hcr]
    by_cases hc : c = sep
    · simp [hc]
    · have hsep : sep ∈ rest := by
        rcases List.mem_cons.mp h with h1 | h1
        · exact absurd h1.symm hc
        · exact h1
      have := ih hsep
      rw [hcr] at this
      simp only [List.length_cons] at this
      simp [hc]
      omega

theorem extract_gx_hash_make_ok (gxp h n : String) :
    ∃ a b, extract_gx_hash gxp (make_gx_path gxp h n) = .ok (a, b) := by
  have hdata : (make_gx_path gxp h n).data = gxp.data ++ '/' :: (h.data ++ '/' :: n.data) := by
    unfold make_gx_path
    rw [str_data_append, str_data_append, str_data_append, str_data_append]
    simp
  have hpre : pyStartsWith (make_gx_path gxp h n) gxp = true := by
    rw [pyStartsWith, hdata, List.isPrefixOf_iff_prefix]
    exact List.prefix_append _ _
  have hdrop : pyDrop (make_gx_path gxp h n) (gxp.length + 1) =
      String.mk (h.data ++ '/' :: n.data) := by
    rw [pyDrop, hdata]
    have hsplit2 : gxp.data ++ '/' :: (h.data ++ '/' :: n.data) =
        (gxp.data ++ ['/']) ++ (h.data ++ '/' :: n.data) := by simp
    rw [hsplit2]
    have hlen : gxp.length + 1 = (gxp.data ++ ['/']).length := by
      rw [List.length_append]
      rfl
    rw [hlen, List.drop_left]
  have hsep : '/' ∈ h.data ++ '/' :: n.data := by simp
  have hlen2 : 2 ≤ (pySplit '/' (String.mk (h.data ++ '/' :: n.data))).length := by
    rw [pySplit, List.length_map]
    exact two_le_pySplitCore_length hsep
  refine ⟨(pySplit '/' (String.mk (h.data ++ '/' :: n.data))).getD 0 "",
    (pySplit '/' (String.mk (h.data ++ '/' :: n.data))).getD 1 "", ?_⟩
  rw [extract_gx_hash, hdrop]
  simp only [hpre, not_true_eq_false, if_false]
  rw [if_neg (by omega)]

theorem walk_step_progress
    (fs : String → Option PackageInfo) (gxp root_repo_path : String) (S : List String)
    (hclosed : ∀ p ∈ S, ∀ q ∈ manifest_children gxp ((fs p).getD ⟨none, none, none⟩), q ∈ S)
    (hman : ∀ p ∈ S, (fs p).isSome = true)
    (hdvcs : ∀ p ∈ S, p ≠ root_repo_path →
      ((fs p).getD ⟨none, none, none⟩).gx_dvcsimport.isSome = true)
    (s : WalkState) (hinv : WalkInv fs gxp root_repo_path S s) :
    (s.queue = [] ∧ walk_step fs gxp root_repo_path s = .done s) ∨
    (∃ s2, walk_step fs gxp root_repo_path s = .next s2 ∧
      WalkInv fs gxp root_repo_path S s2 ∧
      walkMeasure fs gxp S s2 < walkMeasure fs gxp S s) := by
  obtain ⟨hqS, hqShape, hvS, hvNodup, hdeps⟩ := hinv
  cases hq : s.queue.getLast? with
  | none =>
    left
    constructor
    · exact List.getLast?_eq_none_iff.mp hq
    · rw [walk_step, hq]
  | some p =>
    right
    have hpq : p ∈ s.queue := mem_of_getLast?_eq hq
    have hpS : p ∈ S := hqS p hpq
    have hqne : s.queue ≠ [] := by
      intro e
      rw [e] at hq
      simp at hq
    have hq1 : 1 ≤ s.queue.length := by
      cases hql : s.queue with
      | nil => exact absurd hql hqne
      | cons a t => simp
    have hrest_sub : ∀ q ∈ s.queue.dropLast, q ∈ s.queue :=
      fun q hqq => List.dropLast_subset _ hqq
    by_cases hvisited : p ∈ s.visited
    · refine ⟨⟨s.visited, s.queue.dropLast, s.deps⟩, ?_, ?_, ?_⟩
      · rw [walk_step, hq]
        simp [hvisited]
      · exact ⟨fun q hqq => hqS q (hrest_sub q hqq),
          fun q hqq => hqShape q (hrest_sub q hqq), hvS, hvNodup, hdeps⟩
      · rw [walkMeasure, walkMeasure]
        simp only [List.length_dropLast]
        omega
    · have hfs := hman p hpS
      obtain ⟨info, hinfo⟩ : ∃ info, fs p = some info := Option.isSome_iff_exists.mp hfs
      have hchild_mem : ∀ q ∈ manifest_children gxp info, q ∈ S := by
        intro q hqq
        apply hclosed p hpS
        rw [hinfo]
        exact hqq
      have hchild_shape : ∀ q ∈ manifest_children gxp info,
          ∃ hh nn, q = make_gx_path gxp hh nn := by
        intro q hqq
        rw [manifest_children] at hqq
        obtain ⟨d, _, rfl⟩ := List.mem_map.mp hqq
        exact ⟨d.hash, d.name, rfl⟩
      have hv2Nodup : (s.visited ++ [p]).Nodup := by
        rw [List.nodup_append]
        exact ⟨hvNodup, List.nodup_singleton p, List.disjoint_singleton.mpr hvisited⟩
      have hv2S : ∀ q ∈ s.visited ++ [p], q ∈ S := by
        intro q hqq
        rcases List.mem_append.mp hqq with h1 | h1
        · exact hvS q h1
        · rw [List.mem_singleton] at h1
          rw [h1]
          exact hpS
      have hlen_le : (s.visited ++ [p]).length ≤ S.toFinset.card :=
        nodup_subset_length_le hv2Nodup hv2S
      have hv2len : (s.visited ++ [p]).length = s.visited.length + 1 := by simp
      have hcc : (manifest_children gxp info).length ≤ walkBound fs gxp S := by
        have hb := @child_count_le_walkBound fs gxp S p hpS
        rw [child_count, hinfo] at hb
        exact hb
      have hq2S : ∀ q ∈ s.queue.dropLast ++ manifest_children gxp info, q ∈ S := by
        intro q hqq
        rcases List.mem_append.mp hqq with h1 | h1
        · exact hqS q (hrest_sub q h1)
        · exact hchild_mem q h1
      have hq2Shape : ∀ q ∈ s.queue.dropLast ++ manifest_children gxp info,
          q = root_repo_path ∨ ∃ hh nn, q = make_gx_path gxp hh nn := by
        intro q hqq
        rcases List.mem_append.mp hqq with h1 | h1
        · exact hqShape q (hrest_sub q h1)
        · exact Or.inr (hchild_shape q h1)
      have hmeas : ∀ d2 : List RepoVersion,
          walkMeasure fs gxp S
              ⟨s.visited ++ [p], s.queue.dropLast ++ manifest_children gxp info, d2⟩ <
            walkMeasure fs gxp S s := by
        intro d2
        rw [walkMeasure, walkMeasure]
        simp only [hv2len, List.length_append, List.length_dropLast]
        have h1 : s.visited.length + 1 ≤ S.toFinset.card := by
          rw [← hv2len]
          exact hlen_le
        have h3 : S.toFinset.card - s.visited.length =
            (S.toFinset.card - (s.visited.length + 1)) + 1 := by omega
        rw [h3, Nat.succ_mul]
        generalize (S.toFinset.card - (s.visited.length + 1)) * (walkBound fs gxp S + 1) = X
        omega
      by_cases hroot : p = root_repo_path
      · refine ⟨⟨s.visited ++ [p], s.queue.dropLast ++ manifest_children gxp info, s.deps⟩,
          ?_, ?_, hmeas s.deps⟩
        · have hvis2 : root_repo_path ∉ s.visited := hroot ▸ hvisited
          have hinfo2 : fs root_repo_path = some info := hroot ▸ hinfo
          rw [walk_step, hq]
          simp [hroot, hvis2, hinfo2]
        · refine ⟨hq2S, hq2Shape, hv2S, hv2Nodup, ?_⟩
          rw [hdeps, List.filter_append]
          have hfp : List.filter (fun q => q != root_repo_path) [p] = [] := by
            rw [hroot]
            simp
          rw [hfp, List.append_nil]
      · obtain ⟨pkg, hpkg⟩ : ∃ pkg, info.gx_dvcsimport = some pkg := by
          have hd := hdvcs p hpS hroot
          rw [hinfo, Option.getD_some] at hd
          exact Option.isSome_iff_exists.mp hd
        have hshape := hqShape p hpq
        rcases hshape with h1 | ⟨hh, nn, hpeq⟩
        · exact absurd h1 hroot
        · obtain ⟨a, b, hex⟩ := extract_gx_hash_make_ok gxp hh nn
          rw [← hpeq] at hex
          refine ⟨⟨s.visited ++ [p], s.queue.dropLast ++ manifest_children gxp info,
            s.deps ++ [⟨a, resolve_git_repo b pkg, info.version, pkg⟩]⟩, ?_, ?_, hmeas _⟩
          · rw [walk_step, hq]
            simp [hvisited, hinfo, hroot, hpkg, hex]
          · refine ⟨hq2S, hq2Shape, hv2S, hv2Nodup, ?_⟩
            rw [hdeps, List.filter_append]
            have hfp : List.filter (fun q => q != root_repo_path) [p] = [p] := by
              simp [hroot]
            rw [hfp, List.map_append]
            have hrec : dep_record_of fs gxp p =
                ⟨a, resolve_git_repo b pkg, info.version, pkg⟩ := by
              rw [dep_record_of, hinfo, hex]
              simp [hpkg]
            rw [List.map_cons, List.map_nil, hrec]

theorem walk_loop_reaches
    (fs : String → Option PackageInfo) (gxp root_repo_path : String) (S : List String)
    (hclosed : ∀ p ∈ S, ∀ q ∈ manifest_children gxp ((fs p).getD ⟨none, none, none⟩), q ∈ S)
    (hman : ∀ p ∈ S, (fs p).isSome = true)
    (hdvcs : ∀ p ∈ S, p ≠ root_repo_path →
      ((fs p).getD ⟨none, none, none⟩).gx_dvcsimport.isSome = true) :
    ∀ (fuel : Nat) (s : WalkState), WalkInv fs gxp root_repo_path S s →
      walkMeasure fs gxp S s < fuel →
      ∃ sf, walk_loop fs gxp root_repo_path fuel s = .finished sf ∧
        WalkInv fs gxp root_repo_path S sf := by
  intro fuel
  induction fuel with
  | zero => intro s _ hm; omega
  | succ m ih =>
    intro s hinv hm
    rcases walk_step_progress fs gxp root_repo_path S hclosed hman hdvcs s hinv with
      ⟨_, hstep⟩ | ⟨s2, hstep, hinv2, hlt⟩
    · refine ⟨s, ?_, hinv⟩
      rw [walk_loop, hstep]
    · obtain ⟨sf, hsf, hinvf⟩ := ih s2 hinv2 (by omega)
      refine ⟨sf, ?_, hinvf⟩
      rw [walk_loop, hstep]
      exact hsf

theorem walk_loop_mono (fs : String → Option PackageInfo) (gxp root_repo_path : String) :
    ∀ (fuel fuel2 : Nat) (s sf : WalkState), fuel ≤ fuel2 →
      walk_loop fs gxp root_repo_path fuel s = .finished sf →
      walk_loop fs gxp root_repo_path fuel2 s = .finished sf := by
  intro fuel
  induction fuel with
  | zero =>
    intro fuel2 s sf _ h
    rw [walk_loop] at h
    exact absurd h (by simp)
  | succ m ih =>
    intro fuel2 s sf hle h
    obtain ⟨m2, rfl⟩ : ∃ m2, fuel2 = m2 + 1 := ⟨fuel2 - 1, by omega⟩
    rw [walk_loop] at h ⊢
    cases hstep : walk_step fs gxp root_repo_path s with
    | done s2 => rw [hstep] at h; exact h
    | next s2 => rw [hstep] at h; exact ih m2 s2 sf (by omega) h
    | fail e => rw [hstep] at h; exact absurd h (by simp)

/-- C1: for every finite manifest graph — a finite set `S` of paths closed
under child references, including cyclic and diamond-shaped graphs — the
walk of `get_repo_deps` terminates (some fuel finishes the loop, and any
larger fuel gives the same final state), reads each path's manifest at most
once (the visited list, which records manifest reads in order, has no
duplicates), and each visited non-root node contributes exactly one
dependency record, in visiting order, to the accumulated list. -/
theorem get_repo_deps_terminates_unique :
    ∀ (fs : String → Option PackageInfo) (gxp root_repo_path : String) (S : List String),
    root_repo_path ∈ S →
    (∀ p ∈ S, ∀ q ∈ manifest_children gxp ((fs p).getD ⟨none, none, none⟩), q ∈ S) →
    (∀ p ∈ S, (fs p).isSome = true) →
    (∀ p ∈ S, p ≠ root_repo_path →
      ((fs p).getD ⟨none, none, none⟩).gx_dvcsimport.isSome = true) →
    ∃ (fuel : Nat) (sf : WalkState),
      walk_loop fs gxp root_repo_path fuel ⟨[], [root_repo_path], []⟩ = .finished sf ∧
      (∀ fuel2, fuel ≤ fuel2 →
        walk_loop fs gxp root_repo_path fuel2 ⟨[], [root_repo_path], []⟩ = .finished sf) ∧
      sf.visited.Nodup ∧
      sf.deps = (sf.visited.filter (fun p => p != root_repo_path)).map (dep_record_of fs gxp) ∧
      get_repo_deps fs gxp fuel root_repo_path =
        .ok (sf.deps.filter (fun rv => pyContains "github.com" rv.git_repo)) := by
  intro fs gxp root_repo_path S hroot hclosed hman hdvcs
  have hinv0 : WalkInv fs gxp root_repo_path S ⟨[], [root_repo_path], []⟩ := by
    refine ⟨?_, ?_, ?_, ?_, ?_⟩
    · intro p hp
      rw [List.mem_singleton] at hp
      rw [hp]
      exact hroot
    · intro p hp
      rw [List.mem_singleton] at hp
      exact Or.inl hp
    · intro p hp
      cases hp
    · exact List.nodup_nil
    · rfl
  obtain ⟨sf, hsf, hinvf⟩ := walk_loop_reaches fs gxp root_repo_path S hclosed hman hdvcs
    (walkMeasure fs gxp S ⟨[], [root_repo_path], []⟩ + 1) ⟨[], [root_repo_path], []⟩
    hinv0 (by omega)
  exact ⟨walkMeasure fs gxp S ⟨[], [root_repo_path], []⟩ + 1, sf, hsf,
    fun fuel2 hle => walk_loop_mono fs gxp root_repo_path _ fuel2 _ sf hle hsf,
    hinvf.2.2.2.1, hinvf.2.2.2.2, by rw [get_repo_deps, hsf]⟩

theorem get_repo_deps_terminates_unique_witness :
    ("r" : String) ∈ ["r", "g/h/a"] ∧
    ∃ (fuel : Nat) (sf : WalkState),
      walk_loop
          (fun p =>
            if p = "r" then some ⟨some [⟨"a", "h"⟩], none, none⟩
            else if p = "g/h/a" then
              some ⟨some [⟨"a", "h"⟩], some "github.com/o/a/sub", some "1"⟩
            else none)
          "g" "r" fuel ⟨[], ["r"], []⟩ = .finished sf ∧
      (∀ fuel2, fuel ≤ fuel2 →
        walk_loop
          (fun p =>
            if p = "r" then some ⟨some [⟨"a", "h"⟩], none, none⟩
            else if p = "g/h/a" then
              some ⟨some [⟨"a", "h"⟩], some "github.com/o/a/sub", some "1"⟩
            else none)
          "g" "r" fuel2 ⟨[], ["r"], []⟩ = .finished sf) ∧
      sf.visited.Nodup ∧
      sf.deps = (sf.visited.filter (fun p => p != "r")).map
        (dep_record_of
          (fun p =>
            if p = "r" then some ⟨some [⟨"a", "h"⟩], none, none⟩
            else if p = "g/h/a" then
              some ⟨some [⟨"a", "h"⟩], some "github.com/o/a/sub", some "1"⟩
            else none)
          "g") ∧
      get_repo_deps
          (fun p =>
            if p = "r" then some ⟨some [⟨"a", "h"⟩], none, none⟩
            else if p = "g/h/a" then
              some ⟨some [⟨"a", "h"⟩], some "github.com/o/a/sub", some "1"⟩
            else none)
          "g" fuel "r" =
        .ok (sf.deps.filter (fun rv => pyContains "github.com" rv.git_repo)) :=
  ⟨by decide,
    get_repo_deps_terminates_unique
      (fun p =>
        if p = "r" then some ⟨some [⟨"a", "h"⟩], none, none⟩
        else if p = "g/h/a" then
          some ⟨some [⟨"a", "h"⟩], some "github.com/o/a/sub", some "1"⟩
        else none)
      "g" "r" ["r", "g/h/a"] (by decide) (by decide) (by decide) (by decide)⟩
